import Mathlib

/-!
Verification of the graph-to-MLIR importer core (ImporterBase) against its
natural-language specification.  The definitions below are a shallow
embedding of the C++ source: node/edge data is modelled with explicit
structures, the stateful importer is modelled by explicit state passing,
and fallible steps return `Except`.
-/

namespace TFImporter

/-- Status error classes used by the importer (tensorflow::errors). -/
inductive Err where
  | failedPrecondition (msg : String)
  | unimplemented (msg : String)
  | unknown (msg : String)
deriving DecidableEq, Repr

/-- Whether an `Except` value is a success. -/
def exceptIsOk {ε α : Type} : Except ε α → Bool
  | .ok _ => true
  | .error _ => false

/-! ## Graph edges and the `ConvertNode` input-edge sort -/

/-- A graph edge `(src, src_output) → (dst, dst_input)`, as in
`tensorflow::Edge`; nodes are identified by their integer ids. -/
structure Edge where
  src : Nat
  srcOutput : Int
  dst : Nat
  dstInput : Int
deriving DecidableEq, Repr

/-- `Edge::IsControlEdge`: the source output is `Graph::kControlSlot` (-1). -/
def Edge.isControlEdge (e : Edge) : Bool := e.srcOutput == -1

/-- The comparator handed to `absl::c_stable_sort` in `ImporterBase::ConvertNode`:
```
if (e1->IsControlEdge() && !e2->IsControlEdge()) return false;
if (!e1->IsControlEdge() && e2->IsControlEdge()) return true;
return e1->dst_input() < e2->dst_input();
``` -/
def edgeLt (e1 e2 : Edge) : Bool :=
  if e1.isControlEdge && !e2.isControlEdge then false
  else if !e1.isControlEdge && e2.isControlEdge then true
  else decide (e1.dstInput < e2.dstInput)

/-- Stable insertion of an element: it is placed before the first strictly
greater element, hence after all elements equivalent to it. -/
def insertEdge (e : Edge) : List Edge → List Edge
  | [] => [e]
  | x :: xs => if edgeLt e x then e :: x :: xs else x :: insertEdge e xs

/-- The stable sort of the incoming-edge list performed by `ConvertNode`
(`absl::c_stable_sort` with `edgeLt`), modelled as a stable insertion
sort, which produces the same result as any stable sort. -/
def sortInEdges (l : List Edge) : List Edge :=
  l.foldl (fun acc e => insertEdge e acc) []

/-- The edge order asserted by the spec sentence for claim C1 (modelled
from the spec words, for comparison with the source): all control edges
come first and all data edges come after them. -/
def specOrderControlsFirst (l : List Edge) : Bool :=
  l == l.filter (fun e => e.isControlEdge) ++ l.filter (fun e => !e.isControlEdge)

/-! ## Association maps (std::unordered_map / llvm::DenseMap state) -/

/-- Lookup in an association list, the model of map `find`. -/
def mapFind {κ α : Type} [DecidableEq κ] : List (κ × α) → κ → Option α
  | [], _ => none
  | (k', v') :: rest, k => if k' = k then some v' else mapFind rest k

/-- Assignment `m[k] = v` in an association list: replaces the binding for
`k` if present, otherwise appends a fresh one. -/
def mapAssign {κ α : Type} [DecidableEq κ] : List (κ × α) → κ → α → List (κ × α)
  | [], k, v => [(k, v)]
  | (k', v') :: rest, k, v =>
    if k' = k then (k, v) :: rest else (k', v') :: mapAssign rest k v

/-! ## `RemoveBackedges`: recording removed back-edges -/

/-- The recording loop of `ImporterBase::RemoveBackedges` over the list of
edges removed by the back-edge helper: it builds
`back_edge_node_output_` (src node id → src output) and
`back_edge_dst_inputs_` (dst node id → removed edge), failing when a
source node is seen with two different back-edge output indices. -/
def recordBackedges :
    List Edge → List (Nat × Int) → List (Nat × Edge) →
    Except Err (List (Nat × Int) × List (Nat × Edge))
  | [], srcMap, dstMap => .ok (srcMap, dstMap)
  | e :: rest, srcMap, dstMap =>
    match mapFind srcMap e.src with
    | some out =>
      if out ≠ e.srcOutput then
        .error (.failedPrecondition
          "More than one of the src node outputs are backedges!")
      else
        recordBackedges rest (mapAssign srcMap e.src e.srcOutput)
          (mapAssign dstMap e.dst e)
    | none =>
      recordBackedges rest (mapAssign srcMap e.src e.srcOutput)
        (mapAssign dstMap e.dst e)

/-- No source node has two removed back-edges with different output
indices (the condition the recording loop actually enforces). -/
def consistentBackedges (l : List Edge) : Prop :=
  ∀ e1 ∈ l, ∀ e2 ∈ l, e1.src = e2.src → e1.srcOutput = e2.srcOutput

instance (l : List Edge) : Decidable (consistentBackedges l) := by
  unfold consistentBackedges
  infer_instance

/-- Some two edges share a source node but carry different source output
indices. -/
def inconsistentPair (l : List Edge) : Prop :=
  ∃ e1 ∈ l, ∃ e2 ∈ l, e1.src = e2.src ∧ e1.srcOutput ≠ e2.srcOutput

/-- The source map recorded by a successful `recordBackedges` run (empty
on failure). -/
def recordedSrcMap
    (r : Except Err (List (Nat × Int) × List (Nat × Edge))) :
    List (Nat × Int) :=
  match r with
  | .ok m => m.1
  | .error _ => []

/-! ## MLIR attributes and TF attribute values -/

/-- Opaque tensor payload; the tensor codec is an external collaborator
and is consumed as an opaque decodable value. -/
structure TensorProto where
  payload : Nat
deriving DecidableEq, Repr

/-- A tensor shape attribute payload (dimension sizes, -1 = unknown). -/
structure TensorShapeProto where
  dims : List Int
deriving DecidableEq, Repr

mutual
/-- `tensorflow::AttrValue`: one native attribute value.  The `list` case
carries the eight homogeneous sub-lists of `AttrValue::ListValue` in
their declaration order. -/
inductive AttrValue where
  | i (v : Int)
  | s (v : String)
  | f (bits : Nat)
  | b (v : Bool)
  | type (dtype : Nat)
  | shape (sh : TensorShapeProto)
  | tensor (t : TensorProto)
  | list (ints : List Int) (strs : List String) (floats : List Nat)
      (bools : List Bool) (types : List Nat) (shapes : List TensorShapeProto)
      (tensors : List TensorProto) (funcs : List NameAttrList)
  | func (fref : NameAttrList)
  | placeholder (p : String)
  | valueNotSet

/-- `tensorflow::NameAttrList`: a function reference (name plus nested
attributes). -/
inductive NameAttrList where
  | mk (name : String) (attr : List (String × AttrValue))
end

/-- The referenced function name of a `NameAttrList`. -/
def NameAttrList.name : NameAttrList → String
  | .mk n _ => n

/-- The nested attributes of a `NameAttrList`. -/
def NameAttrList.attr : NameAttrList → List (String × AttrValue)
  | .mk _ a => a

/-- MLIR attribute values produced by the importer. -/
inductive MAttr where
  | i64 (v : Int)
  | str (s : String)
  | f32 (bits : Nat)
  | b (v : Bool)
  | tensorElems (t : TensorProto)
  | symbolRef (fname : String)
  | arr (elems : List MAttr)
  | unit

/-- Modelled from the spec: `mangling_util::MangleDataType`, a canonical
reversible string encoding of a data type (external collaborator). -/
def mangleDataType (dtype : Nat) : String := "tfdtype$" ++ toString dtype

/-- Modelled from the spec: `mangling_util::MangleShape`, a canonical
reversible string encoding of a shape (external collaborator). -/
def mangleShape (sh : TensorShapeProto) : String :=
  "tfshape$" ++ toString sh.dims

/-- Modelled from the spec: the attribute/tensor codec collaborator
(`::tensorflow::ConvertTensorProto`), decoding an opaque encoded tensor
into a typed, shaped element attribute. -/
def convertTensorProto (t : TensorProto) : Except Err MAttr :=
  .ok (.tensorElems t)

/-! ## The library-function converter state -/

/-- The state shared by `ConvertLibFunction` and the attribute converter:
the name-translation table `tf_name_to_mlir_name_`, the names of the IR
functions already placed in the module, and the names present in the
graph function library `graph_flib_`. -/
structure LibState where
  tfNameToMlirName : List (String × String)
  moduleFuncs : List String
  library : List String
deriving DecidableEq, Repr

/-- `ImporterBase::ConvertLibFunction`.  The recursive conversion of the
function body (a child importer running the whole pipeline) is modelled
as appending the one converted function to the module; `uniq` models the
external `FunctionLibraryDefinition::UniqueFunctionName`.  The
memoization lookup, the table insertion and the library lookup keep the
exact order of the source. -/
def convertLibFunction (uniq : String → LibState → String) (st : LibState)
    (funcName : String) : Except Err Unit × LibState :=
  match mapFind st.tfNameToMlirName funcName with
  | some _ => (.ok (), st)
  | none =>
    let mlirFuncName := uniq funcName st
    let st1 : LibState :=
      { st with
        tfNameToMlirName := mapAssign st.tfNameToMlirName funcName mlirFuncName }
    if st1.library.contains funcName then
      (.ok (), { st1 with moduleFuncs := st1.moduleFuncs ++ [mlirFuncName] })
    else
      (.error (.failedPrecondition
        ("Failed to find function " ++ funcName
          ++ ". The imported TensorFlow GraphDef is ill-formed.")), st1)

/-- A function name the library converter can resolve: already memoized
in the name-translation table, or present in the function library. -/
def resolvable (st : LibState) (n : String) : Prop :=
  (mapFind st.tfNameToMlirName n).isSome = true ∨ st.library.contains n = true

/-- `ImporterBase::ConvertFunctionCallName`: ensure the function is
converted, then build a symbol reference to its translated name (the
`operator[]` default on a missing key is the empty string). -/
def convertFunctionCallName (uniq : String → LibState → String) (st : LibState)
    (funcName : String) : Except Err MAttr × LibState :=
  match convertLibFunction uniq st funcName with
  | (.error e, st') => (.error e, st')
  | (.ok _, st') =>
    (.ok (.symbolRef ((mapFind st'.tfNameToMlirName funcName).getD "")), st')

/-- The loop over `value.list().func()` in
`ImporterBase::ConvertAttributeValue`: each listed function reference is
converted to a symbol reference; a listed reference carrying nested
attributes is unimplemented.  The name is converted before the nested
attribute check, as in the source. -/
def convertListFuncs (uniq : String → LibState → String) :
    LibState → List NameAttrList → Except Err (List MAttr) × LibState
  | st, [] => (.ok [], st)
  | st, item :: rest =>
    match convertFunctionCallName uniq st item.name with
    | (.error e, st') => (.error e, st')
    | (.ok attr, st') =>
      if item.attr.length ≠ 0 then
        (.error (.unimplemented "func attributes with non-zero attr.size()"), st')
      else
        match convertListFuncs uniq st' rest with
        | (.error e, st'') => (.error e, st'')
        | (.ok attrs, st'') => (.ok (attr :: attrs), st'')

/-- `ImporterBase::ConvertAttributeValue`: the switch over the attribute
value case.  Scalars map directly, types and shapes are mangled to
strings, tensors go through the codec, lists are flattened by exhausting
each homogeneous sub-list in declaration order, `kFunc` is handled
separately, an unset value becomes a unit attribute, and the placeholder
encoding is unimplemented. -/
def convertAttributeValue (uniq : String → LibState → String) (st : LibState) :
    AttrValue → Except Err MAttr × LibState
  | .i v => (.ok (.i64 v), st)
  | .s v => (.ok (.str v), st)
  | .f bits => (.ok (.f32 bits), st)
  | .b v => (.ok (.b v), st)
  | .type dtype => (.ok (.str (mangleDataType dtype)), st)
  | .shape sh => (.ok (.str (mangleShape sh)), st)
  | .tensor t => (convertTensorProto t, st)
  | .list ints strs floats bools types shapes tensors funcs =>
    match convertListFuncs uniq st funcs with
    | (.error e, st') => (.error e, st')
    | (.ok funcAttrs, st') =>
      (.ok (.arr (ints.map MAttr.i64 ++ strs.map MAttr.str
        ++ floats.map MAttr.f32 ++ bools.map MAttr.b
        ++ types.map (fun t => MAttr.str (mangleDataType t))
        ++ shapes.map (fun sh => MAttr.str (mangleShape sh))
        ++ tensors.map MAttr.tensorElems ++ funcAttrs)), st')
  | .func _ => (.error (.unknown "kFunc type should be handled separately!"), st)
  | .placeholder _ => (.error (.unimplemented "Attribute kPlaceholder"), st)
  | .valueNotSet => (.ok .unit, st)

/-- The nested-attribute loop of
`ImporterBase::ConvertFunctionCallAttribute`: each nested key `k` with
value `v` contributes one attribute named `base_name.k` holding the
converted `v`. -/
def convertNestedFnAttrs (uniq : String → LibState → String) (baseName : String) :
    LibState → List (String × AttrValue) →
    Except Err (List (String × MAttr)) × LibState
  | st, [] => (.ok [], st)
  | st, (k, v) :: rest =>
    match convertAttributeValue uniq st v with
    | (.error e, st') => (.error e, st')
    | (.ok a, st') =>
      match convertNestedFnAttrs uniq baseName st' rest with
      | (.error e, st'') => (.error e, st'')
      | (.ok xs, st'') => (.ok ((baseName ++ "." ++ k, a) :: xs), st'')

/-- `ImporterBase::ConvertFunctionCallAttribute`: one reference attribute
under the base name, then one attribute per nested key-value pair. -/
def convertFunctionCallAttribute (uniq : String → LibState → String)
    (st : LibState) (baseName : String) (fref : NameAttrList) :
    Except Err (List (String × MAttr)) × LibState :=
  match convertFunctionCallName uniq st fref.name with
  | (.error e, st') => (.error e, st')
  | (.ok funcAttr, st') =>
    match convertNestedFnAttrs uniq baseName st' fref.attr with
    | (.error e, st'') => (.error e, st'')
    | (.ok nested, st'') => (.ok ((baseName, funcAttr) :: nested), st'')

/-! ## The shape-refinement fixpoint loop -/

/-- The iteration cap of `ImporterBase::AddNodesToShapeRefiner`. -/
def kMaxIterationCount : Nat := 2

/-- One round of the fixpoint loop: re-run every node's inference rule in
the stored topological order (`ordered_nodes_`), accumulating whether any
node's output shape changed.  `updateNode` models the collaborator
`shape_refiner_->UpdateNode`, and `outputsChanged` the before/after
shape-handle comparison. -/
def refineRound {σ : Type} (updateNode : Nat → σ → Except Err σ)
    (outputsChanged : Nat → σ → σ → Bool) :
    List Nat → σ → Bool → Except Err (σ × Bool)
  | [], s, changed => .ok (s, changed)
  | n :: ns, s, changed =>
    match updateNode n s with
    | .error e => .error e
    | .ok s' =>
      refineRound updateNode outputsChanged ns s' (changed || outputsChanged n s s')

/-- The `while (changed && i != kMaxIterationCount)` loop; `fuel` is
`kMaxIterationCount - i`, so the loop structure is mirrored exactly. -/
def refineLoop {σ : Type} (updateNode : Nat → σ → Except Err σ)
    (outputsChanged : Nat → σ → σ → Bool) (nodes : List Nat) :
    Nat → σ → Bool → Nat → Except Err (σ × Nat)
  | fuel, s, changed, i =>
    if changed = false then .ok (s, i)
    else
      match fuel with
      | 0 => .ok (s, i)
      | fuel' + 1 =>
        match refineRound updateNode outputsChanged nodes s false with
        | .error e => .error e
        | .ok (s', ch') =>
          refineLoop updateNode outputsChanged nodes fuel' s' ch' (i + 1)

/-- The fixpoint portion of `ImporterBase::AddNodesToShapeRefiner`:
`changed = true; i = 0;` then the capped while loop; non-convergence at
the cap only logs a warning, the status is OK either way, and the best
shapes found are kept.  Returns the final refiner state and the number of
rounds run. -/
def shapeRefineFixpoint {σ : Type} (updateNode : Nat → σ → Except Err σ)
    (outputsChanged : Nat → σ → σ → Bool) (nodes : List Nat) (s : σ) :
    Except Err (σ × Nat) :=
  refineLoop updateNode outputsChanged nodes kMaxIterationCount s true 0

/-! ## Declared-return collection (`ConvertFunctionArgAndRets`) -/

/-- `FunctionLibraryDefinition::kRetOp`. -/
def kRetOp : String := "_Retval"

/-- `FunctionLibraryDefinition::kDeviceRetOp`. -/
def kDeviceRetOp : String := "_DeviceRetval"

/-- The per-return step of `ImporterBase::ConvertFunctionArgAndRets`: for
a return produced by a return pseudo-op, look inside the island at the
inner operation; it must have exactly one operand, which is returned
directly while the wrapper is erased (`true` flag).  Any other node
contributes its indexed result and is kept (`false` flag).  Values are
(defining operation id, result index) pairs. -/
def convertRet (retNodeType : String) (retIndex : Nat)
    (islandInnerOperands : List (Nat × Nat)) (instId : Nat) :
    Except Err ((Nat × Nat) × Bool) :=
  if retNodeType == kRetOp || retNodeType == kDeviceRetOp then
    if islandInnerOperands.length ≠ 1 then
      .error (.unimplemented "Return node with multiple inputs.")
    else .ok (islandInnerOperands.getD 0 (0, 0), true)
  else .ok ((instId, retIndex), false)

/-! ## Back-edge restoration (`AddBackedges` / `AddBackedge`) -/

/-- A graph node (id plus its operation type string), as needed by the
back-edge class checks. -/
structure GNode where
  id : Nat
  typeString : String
deriving DecidableEq, Repr

/-- `Node::IsNextIteration`: the node class of "NextIteration" and
"RefNextIteration" nodes. -/
def GNode.isNextIteration (n : GNode) : Bool :=
  n.typeString == "NextIteration" || n.typeString == "RefNextIteration"

/-- `Node::IsMerge`: the node class of "Merge" and "RefMerge" nodes. -/
def GNode.isMerge (n : GNode) : Bool :=
  n.typeString == "Merge" || n.typeString == "RefMerge"

/-- A recorded removed back-edge as stored in `back_edge_dst_inputs_`,
with the node endpoints. -/
structure RecordedBackEdge where
  src : GNode
  srcOutput : Int
  dst : GNode
  dstInput : Nat
deriving DecidableEq, Repr

/-- An MLIR operation as the restorer sees it: name, data operands (as
(defining op id, result index) pairs), attributes and result types. -/
structure MOp where
  name : String
  operands : List (Nat × Nat)
  attrs : List (String × String)
  resultTypes : List String
deriving DecidableEq, Repr

/-- The operand-building loop of `ImporterBase::AddBackedge`:
`for (input = 0; input != num_operands + 1; ++input)` copying operands
and inserting the feedback value at index `dst_input`. -/
def addBackedgeOperands (operands : List (Nat × Nat)) (dstInput : Nat)
    (fb : Nat × Nat) : List (Nat × Nat) :=
  (List.range (operands.length + 1)).map fun input =>
    if input < dstInput then operands.getD input (0, 0)
    else if input = dstInput then fb
    else operands.getD (input - 1) (0, 0)

/-- `ImporterBase::AddBackedge`: the NextIteration source is reached via
the token held by the sink's first operand; the destination is rebuilt
with the source's first result inserted at `dst_input`, all other
operands, the attributes and the result types copied unchanged. -/
def addBackedge (sink dst : MOp) (dstInput : Nat) : MOp :=
  let source : Nat := (sink.operands.getD 0 (0, 0)).1
  { name := dst.name
    operands := addBackedgeOperands dst.operands dstInput (source, 0)
    attrs := dst.attrs
    resultTypes := dst.resultTypes }

/-- `ImporterBase::AddBackedges`: for every recorded removed edge, check
that it runs from a NextIteration node to a Merge node (else a fatal
precondition error) and rebuild the destination operation.  `opOf` models
the `node_values_` registry; the rebuilt destinations are returned in
order. -/
def addBackedges (opOf : Nat → MOp) : List RecordedBackEdge → Except Err (List MOp)
  | [] => .ok []
  | e :: rest =>
    if !e.src.isNextIteration || !e.dst.isMerge then
      .error (.failedPrecondition
        "Invalid backedge; should be from NextIteration to Merge!")
    else
      match addBackedges opOf rest with
      | .error err => .error err
      | .ok rest' =>
        .ok (addBackedge (opOf e.src.id) (opOf e.dst.id) e.dstInput :: rest')

/-! ## Theorems -/

theorem mem_insertEdge {e y : Edge} {l : List Edge} :
    y ∈ insertEdge e l ↔ y = e ∨ y ∈ l := by
  induction l with
  | nil => simp [insertEdge]
  | cons x xs ih =>
    cases h : edgeLt e x with
    | true =>
      simp [insertEdge, h, List.mem_cons]
    | false =>
      simp only [insertEdge, h, Bool.false_eq_true, if_false, List.mem_cons, ih]
      tauto

theorem insertEdge_append_last {e : Edge} {l : List Edge}
    (h : ∀ y ∈ l, edgeLt e y = false) : insertEdge e l = l ++ [e] := by
  induction l with
  | nil => simp [insertEdge]
  | cons x xs ih =>
    have hx : edgeLt e x = false := h x (List.mem_cons_self x xs)
    simp only [insertEdge, hx, Bool.false_eq_true, if_false, List.cons_append,
      List.cons.injEq, true_and]
    exact ih (fun y hy => h y (List.mem_cons_of_mem x hy))

theorem insertEdge_append_right {e : Edge} {d c : List Edge}
    (h : ∀ y ∈ c, edgeLt e y = true) :
    insertEdge e (d ++ c) = insertEdge e d ++ c := by
  induction d with
  | nil =>
    cases c with
    | nil => simp [insertEdge]
    | cons y ys =>
      have := h y (List.mem_cons_self y ys)
      simp [insertEdge, this]
  | cons x xs ih =>
    cases hx : edgeLt e x with
    | true => simp [insertEdge, hx]
    | false =>
      simp only [List.cons_append, insertEdge, hx, Bool.false_eq_true, if_false,
        List.cons.injEq, true_and]
      exact ih

theorem edgeLt_false_of_ctrl {e y : Edge} (he : e.isControlEdge = true)
    (hdst : e.dstInput = -1) (hy : y.isControlEdge = true → y.dstInput = -1) :
    edgeLt e y = false := by
  by_cases hyc : y.isControlEdge = true
  · have := hy hyc
    simp [edgeLt, he, hyc, hdst, this]
  · simp only [Bool.not_eq_true] at hyc
    simp [edgeLt, he, hyc]

theorem edgeLt_true_data_ctrl {e y : Edge} (he : e.isControlEdge = false)
    (hy : y.isControlEdge = true) : edgeLt e y = true := by
  simp [edgeLt, he, hy]

theorem sortInEdges_split_aux (l : List Edge) :
    ∀ (a b : List Edge),
    (∀ x ∈ a, x.isControlEdge = false) →
    (∀ x ∈ b, x.isControlEdge = true ∧ x.dstInput = -1) →
    (∀ e ∈ l, e.isControlEdge = true → e.dstInput = -1) →
    l.foldl (fun acc e => insertEdge e acc) (a ++ b)
      = (l.filter (fun e => !e.isControlEdge)).foldl (fun acc e => insertEdge e acc) a
        ++ b ++ l.filter (fun e => e.isControlEdge) := by
  induction l with
  | nil => intro a b _ _ _; simp
  | cons e rest ih =>
    intro a b ha hb hl
    by_cases hec : e.isControlEdge = true
    · have hed : e.dstInput = -1 := hl e (List.mem_cons_self e rest) hec
      have hins : insertEdge e (a ++ b) = a ++ (b ++ [e]) := by
        rw [insertEdge_append_last, List.append_assoc]
        intro y hy
        rcases List.mem_append.mp hy with hya | hyb
        · exact edgeLt_false_of_ctrl hec hed
            (fun hc => absurd (ha y hya) (by simp [hc]))
        · exact edgeLt_false_of_ctrl hec hed (fun _ => (hb y hyb).2)
      have hstep := ih a (b ++ [e]) ha
        (by
          intro x hx
          rcases List.mem_append.mp hx with hxb | hxe
          · exact hb x hxb
          · rcases List.mem_singleton.mp hxe with rfl
            exact ⟨hec, hed⟩)
        (fun x hx hc => hl x (List.mem_cons_of_mem e hx) hc)
      calc (e :: rest).foldl (fun acc e => insertEdge e acc) (a ++ b)
          = rest.foldl (fun acc e => insertEdge e acc) (a ++ (b ++ [e])) := by
            simp [List.foldl_cons, hins]
        _ = (rest.filter (fun e => !e.isControlEdge)).foldl
              (fun acc e => insertEdge e acc) a
            ++ (b ++ [e]) ++ rest.filter (fun e => e.isControlEdge) := hstep
        _ = ((e :: rest).filter (fun e => !e.isControlEdge)).foldl
              (fun acc e => insertEdge e acc) a
            ++ b ++ (e :: rest).filter (fun e => e.isControlEdge) := by
            simp [List.filter_cons, hec, List.append_assoc]
    · simp only [Bool.not_eq_true] at hec
      have hins : insertEdge e (a ++ b) = insertEdge e a ++ b :=
        insertEdge_append_right
          (fun y hy => edgeLt_true_data_ctrl hec (hb y hy).1)
      have hstep := ih (insertEdge e a) b
        (by
          intro x hx
          rcases mem_insertEdge.mp hx with rfl | hxa
          · exact hec
          · exact ha x hxa)
        hb (fun x hx hc => hl x (List.mem_cons_of_mem e hx) hc)
      calc (e :: rest).foldl (fun acc e => insertEdge e acc) (a ++ b)
          = rest.foldl (fun acc e => insertEdge e acc) (insertEdge e a ++ b) := by
            simp [List.foldl_cons, hins]
        _ = (rest.filter (fun e => !e.isControlEdge)).foldl
              (fun acc e => insertEdge e acc) (insertEdge e a)
            ++ b ++ rest.filter (fun e => e.isControlEdge) := hstep
        _ = ((e :: rest).filter (fun e => !e.isControlEdge)).foldl
              (fun acc e => insertEdge e acc) a
            ++ b ++ (e :: rest).filter (fun e => e.isControlEdge) := by
            simp [List.filter_cons, hec]

theorem sortInEdges_split (l : List Edge)
    (hl : ∀ e ∈ l, e.isControlEdge = true → e.dstInput = -1) :
    sortInEdges l
      = sortInEdges (l.filter (fun e => !e.isControlEdge))
        ++ l.filter (fun e => e.isControlEdge) := by
  have := sortInEdges_split_aux l [] [] (by simp) (by simp) hl
  simpa [sortInEdges] using this

theorem insertEdge_pairwise {e : Edge} {l : List Edge}
    (he : e.isControlEdge = false) (hl : ∀ y ∈ l, y.isControlEdge = false)
    (hs : l.Pairwise (fun a b => a.dstInput ≤ b.dstInput)) :
    (insertEdge e l).Pairwise (fun a b => a.dstInput ≤ b.dstInput) := by
  induction l with
  | nil => simp [insertEdge]
  | cons x xs ih =>
    have hx : x.isControlEdge = false := hl x (List.mem_cons_self x xs)
    rcases List.pairwise_cons.mp hs with ⟨hxall, hxs⟩
    cases hlt : edgeLt e x with
    | true =>
      have hexd : e.dstInput < x.dstInput := by
        simpa [edgeLt, he, hx] using hlt
      simp only [insertEdge, hlt, if_true]
      refine List.pairwise_cons.mpr ⟨?_, hs⟩
      intro z hz
      rcases List.mem_cons.mp hz with rfl | hzx
      · exact le_of_lt hexd
      · exact le_trans (le_of_lt hexd) (hxall z hzx)
    | false =>
      have hxe : x.dstInput ≤ e.dstInput := by
        have : ¬ e.dstInput < x.dstInput := by
          simpa [edgeLt, he, hx] using hlt
        omega
      simp only [insertEdge, hlt, Bool.false_eq_true, if_false]
      refine List.pairwise_cons.mpr ⟨?_, ?_⟩
      · intro z hz
        rcases mem_insertEdge.mp hz with rfl | hzx
        · exact hxe
        · exact hxall z hzx
      · exact ih (fun y hy => hl y (List.mem_cons_of_mem x hy)) hxs

theorem sortInEdges_data_sorted (l : List Edge)
    (hl : ∀ e ∈ l, e.isControlEdge = false) :
    (sortInEdges l).Pairwise (fun a b => a.dstInput ≤ b.dstInput) := by
  suffices h : ∀ (acc : List Edge), (∀ y ∈ acc, y.isControlEdge = false) →
      acc.Pairwise (fun a b => a.dstInput ≤ b.dstInput) →
      (∀ e ∈ l, e.isControlEdge = false) →
      (l.foldl (fun acc e => insertEdge e acc) acc).Pairwise
        (fun a b => a.dstInput ≤ b.dstInput) by
    exact h [] (by simp) (by simp) hl
  clear hl
  induction l with
  | nil => intro acc _ hs _; simpa using hs
  | cons e rest ih =>
    intro acc hacc hs hl
    have he : e.isControlEdge = false := hl e (List.mem_cons_self e rest)
    simp only [List.foldl_cons]
    exact ih (insertEdge e acc)
      (by
        intro y hy
        rcases mem_insertEdge.mp hy with rfl | hya
        · exact he
        · exact hacc y hya)
      (insertEdge_pairwise he hacc hs)
      (fun x hx => hl x (List.mem_cons_of_mem e hx))

/-! ### Association-map lemmas -/

theorem mapFind_mapAssign_self {κ α : Type} [DecidableEq κ]
    (m : List (κ × α)) (k : κ) (v : α) :
    mapFind (mapAssign m k v) k = some v := by
  induction m with
  | nil => simp [mapAssign, mapFind]
  | cons p rest ih =>
    rcases p with ⟨k', v'⟩
    by_cases h : k' = k
    · simp [mapAssign, mapFind, h]
    · simp [mapAssign, mapFind, h, ih]

theorem mapFind_mapAssign_ne {κ α : Type} [DecidableEq κ]
    (m : List (κ × α)) {k k' : κ} (v : α) (h : k' ≠ k) :
    mapFind (mapAssign m k v) k' = mapFind m k' := by
  induction m with
  | nil =>
    simp only [mapAssign, mapFind]
    rw [if_neg (fun hh : k = k' => h (Eq.symm hh))]
  | cons p rest ih =>
    rcases p with ⟨k0, v0⟩
    by_cases h0 : k0 = k
    · subst h0
      simp only [mapAssign, if_pos rfl, mapFind]
      rw [if_neg (fun hh : k0 = k' => h (Eq.symm hh)),
        if_neg (fun hh : k0 = k' => h (Eq.symm hh))]
    · simp only [mapAssign, if_neg h0, mapFind]
      by_cases h1 : k0 = k'
      · rw [if_pos h1, if_pos h1]
      · rw [if_neg h1, if_neg h1, ih]

/-! ### Claim C1 -/

/-- Claim C1, as stated, is false on the code: for a node with one stored
control edge followed by one data edge, the sort of `ConvertNode` places
the data edge first, not after the control edge as the spec asserts. -/
theorem claim1_counterexample :
    sortInEdges [⟨0, -1, 2, -1⟩, ⟨1, 0, 2, 0⟩]
      = [⟨1, 0, 2, 0⟩, ⟨0, -1, 2, -1⟩]
    ∧ specOrderControlsFirst (sortInEdges [⟨0, -1, 2, -1⟩, ⟨1, 0, 2, 0⟩])
        = false := by
  constructor <;> rfl

/-- Claim C1 (amended): for every node converted by `ConvertNode`, the
incoming edges are sorted into a deterministic order in which all data
edges, sorted by destination input index, come BEFORE all control edges
(the control edges keeping their stored relative order). -/
theorem claim1_data_edges_sorted_before_controls (l : List Edge)
    (hctrl : ∀ e ∈ l, e.isControlEdge = true → e.dstInput = -1) :
    sortInEdges l
      = sortInEdges (l.filter (fun e => !e.isControlEdge))
        ++ l.filter (fun e => e.isControlEdge)
    ∧ (sortInEdges (l.filter (fun e => !e.isControlEdge))).Pairwise
        (fun a b => a.dstInput ≤ b.dstInput) := by
  refine ⟨sortInEdges_split l hctrl, sortInEdges_data_sorted _ ?_⟩
  intro e he
  have := List.mem_filter.mp he
  simpa using this.2

/-- Concrete instantiation of the amended claim C1. -/
theorem claim1_witness :
    sortInEdges [⟨0, -1, 2, -1⟩, ⟨1, 0, 2, 0⟩, ⟨3, 1, 2, 1⟩]
      = sortInEdges
          (([⟨0, -1, 2, -1⟩, ⟨1, 0, 2, 0⟩, ⟨3, 1, 2, 1⟩] : List Edge).filter
            (fun e => !e.isControlEdge))
        ++ ([⟨0, -1, 2, -1⟩, ⟨1, 0, 2, 0⟩, ⟨3, 1, 2, 1⟩] : List Edge).filter
            (fun e => e.isControlEdge)
    ∧ (sortInEdges
        (([⟨0, -1, 2, -1⟩, ⟨1, 0, 2, 0⟩, ⟨3, 1, 2, 1⟩] : List Edge).filter
          (fun e => !e.isControlEdge))).Pairwise
        (fun a b => a.dstInput ≤ b.dstInput) :=
  claim1_data_edges_sorted_before_controls
    [⟨0, -1, 2, -1⟩, ⟨1, 0, 2, 0⟩, ⟨3, 1, 2, 1⟩] (by decide)

/-! ### Claim C2 -/

theorem addBackedgeOperands_eq (ops : List (Nat × Nat)) (k : Nat)
    (fb : Nat × Nat) (hk : k ≤ ops.length) :
    addBackedgeOperands ops k fb = ops.take k ++ fb :: ops.drop k := by
  have hlt : (ops.take k).length = k := by simp [List.length_take]; omega
  apply List.ext_getElem
  · simp only [addBackedgeOperands, List.length_map, List.length_range,
      List.length_append, List.length_take, List.length_cons, List.length_drop]
    omega
  · intro i h1 h2
    simp only [addBackedgeOperands, List.length_map, List.length_range] at h1
    simp only [addBackedgeOperands, List.getElem_map, List.getElem_range]
    rcases lt_trichotomy i k with hik | hik | hik
    · have hi : i < ops.length := lt_of_lt_of_le hik hk
      have htl : i < (ops.take k).length := by omega
      rw [List.getElem_append_left htl, if_pos hik, List.getElem_take,
        List.getD_eq_getElem ops (0, 0) hi]
    · have htl : (ops.take k).length ≤ i := by omega
      rw [if_neg (by omega : ¬ i < k), if_pos hik, List.getElem_append_right htl]
      have h0 : i - (ops.take k).length = 0 := by omega
      have hb : i - (ops.take k).length < (fb :: ops.drop k).length := by
        simp [List.length_drop]; omega
      have hopt : (fb :: ops.drop k)[i - (ops.take k).length]? = some fb := by
        rw [h0, List.getElem?_cons_zero]
      rw [List.getElem?_eq_getElem hb] at hopt
      exact (Option.some_inj.mp hopt).symm
    · have htl : (ops.take k).length ≤ i := by omega
      rw [if_neg (by omega : ¬ i < k), if_neg (by omega : ¬ i = k),
        List.getElem_append_right htl]
      have him : i - 1 < ops.length := by omega
      rw [List.getD_eq_getElem ops (0, 0) him]
      have hb : i - (ops.take k).length < (fb :: ops.drop k).length := by
        simp [List.length_drop]; omega
      have hopt : (fb :: ops.drop k)[i - (ops.take k).length]?
          = some ops[i - 1] := by
        rw [hlt]
        have hj : i - k = (i - k - 1) + 1 := by omega
        rw [hj, List.getElem?_cons_succ, List.getElem?_drop]
        have hj2 : k + (i - k - 1) = i - 1 := by omega
        rw [hj2, List.getElem?_eq_getElem him]
      rw [List.getElem?_eq_getElem hb] at hopt
      exact (Option.some_inj.mp hopt).symm

/-- Claim C2: restoring the single recorded back-edge of a feedback-loop
pattern rebuilds the merge operation with the feedback value (the first
result of the companion source operation, located via the sink's first
operand) inserted at exactly the removed edge's destination input
position; all other operands keep their relative order, and the
destination's attributes and result types are copied unchanged. -/
theorem claim2_backedge_inserted_at_original_position (opOf : Nat → MOp)
    (e : RecordedBackEdge)
    (h1 : e.src.isNextIteration = true) (h2 : e.dst.isMerge = true)
    (h3 : e.dstInput ≤ (opOf e.dst.id).operands.length) :
    addBackedges opOf [e]
      = .ok [{ name := (opOf e.dst.id).name
               operands := (opOf e.dst.id).operands.take e.dstInput
                 ++ (((opOf e.src.id).operands.getD 0 (0, 0)).1, 0)
                    :: (opOf e.dst.id).operands.drop e.dstInput
               attrs := (opOf e.dst.id).attrs
               resultTypes := (opOf e.dst.id).resultTypes }] := by
  simp only [addBackedges, h1, h2, Bool.not_true, Bool.or_self,
    Bool.false_eq_true, if_false]
  simp only [addBackedge, addBackedgeOperands_eq _ _ _ h3]

/-- Concrete instantiation of claim C2: a merge with operands
`[a, b]` and its back-edge removed at input position 1 is rebuilt as
`[a, feedback, b]`. -/
theorem claim2_witness :
    addBackedges
      (fun i =>
        if i = 1 then
          { name := "tf_executor.NextIteration.sink", operands := [(7, 0)],
            attrs := [], resultTypes := [] }
        else
          { name := "tf_executor.Merge", operands := [(3, 0), (4, 0)],
            attrs := [("name", "m")], resultTypes := ["tensor"] })
      [{ src := ⟨1, "NextIteration"⟩, srcOutput := 0,
         dst := ⟨2, "Merge"⟩, dstInput := 1 }]
      = .ok [{ name := "tf_executor.Merge",
               operands := [(3, 0), (7, 0), (4, 0)],
               attrs := [("name", "m")], resultTypes := ["tensor"] }] := by
  have h := claim2_backedge_inserted_at_original_position
    (fun i =>
      if i = 1 then
        { name := "tf_executor.NextIteration.sink", operands := [(7, 0)],
          attrs := [], resultTypes := [] }
      else
        { name := "tf_executor.Merge", operands := [(3, 0), (4, 0)],
          attrs := [("name", "m")], resultTypes := ["tensor"] })
    { src := ⟨1, "NextIteration"⟩, srcOutput := 0,
      dst := ⟨2, "Merge"⟩, dstInput := 1 }
    (by decide) (by decide) (by decide)
  simpa using h

/-! ### Claim C6 -/

theorem refineRound_total {σ : Type} (updateNode : Nat → σ → Except Err σ)
    (outputsChanged : Nat → σ → σ → Bool)
    (h : ∀ n t, exceptIsOk (updateNode n t) = true) (ns : List Nat) :
    ∀ (s : σ) (ch : Bool), ∃ s' ch',
      refineRound updateNode outputsChanged ns s ch = .ok (s', ch') := by
  induction ns with
  | nil => intro s ch; exact ⟨s, ch, rfl⟩
  | cons n ns ih =>
    intro s ch
    cases hn : updateNode n s with
    | error e => have := h n s; rw [hn] at this; simp [exceptIsOk] at this
    | ok s' =>
      rcases ih s' (ch || outputsChanged n s s') with ⟨s'', ch'', hrec⟩
      exact ⟨s'', ch'', by simp [refineRound, hn, hrec]⟩

theorem refineLoop_ok_bounded {σ : Type} (updateNode : Nat → σ → Except Err σ)
    (outputsChanged : Nat → σ → σ → Bool) (nodes : List Nat)
    (h : ∀ n t, exceptIsOk (updateNode n t) = true) :
    ∀ (fuel : Nat) (s : σ) (ch : Bool) (i : Nat), ∃ s' j,
      refineLoop updateNode outputsChanged nodes fuel s ch i = .ok (s', j)
      ∧ j ≤ i + fuel := by
  intro fuel
  induction fuel with
  | zero =>
    intro s ch i
    cases ch <;> exact ⟨s, i, by simp [refineLoop], by omega⟩
  | succ fuel' ih =>
    intro s ch i
    cases ch with
    | false => exact ⟨s, i, by simp [refineLoop], by omega⟩
    | true =>
      rcases refineRound_total updateNode outputsChanged h nodes s false
        with ⟨s', ch', hround⟩
      rcases ih s' ch' (i + 1) with ⟨s'', j, hrec, hj⟩
      refine ⟨s'', j, ?_, by omega⟩
      simp only [refineLoop, Bool.true_eq_false, if_false, hround]
      exact hrec

/-- Claim C6: the shape-refinement fixpoint loop runs each node's
inference rule in topological order for at most `kMaxIterationCount = 2`
rounds, and when every per-node update succeeds the loop returns success
regardless of whether the shapes converged (non-convergence is only a
logged warning, never an error). -/
theorem claim6_shape_refinement_capped_and_total {σ : Type}
    (updateNode : Nat → σ → Except Err σ) (outputsChanged : Nat → σ → σ → Bool)
    (nodes : List Nat) (s : σ)
    (h : ∀ n t, exceptIsOk (updateNode n t) = true) :
    exceptIsOk (shapeRefineFixpoint updateNode outputsChanged nodes s) = true
    ∧ ∀ s' rounds,
        shapeRefineFixpoint updateNode outputsChanged nodes s = .ok (s', rounds) →
        rounds ≤ kMaxIterationCount := by
  rcases refineLoop_ok_bounded updateNode outputsChanged nodes h
    kMaxIterationCount s true 0 with ⟨s', j, hloop, hj⟩
  constructor
  · simp [shapeRefineFixpoint, hloop, exceptIsOk]
  · intro s'' rounds hr
    rw [shapeRefineFixpoint] at hr
    rw [hloop] at hr
    injection hr with hr
    injection hr with _ hr2
    omega

/-- Concrete instantiation of claim C6: a refiner whose comparison always
reports a change (never converging) still returns success after exactly
the capped number of rounds. -/
theorem claim6_witness :
    exceptIsOk (shapeRefineFixpoint (fun _ (t : Nat) => .ok t)
      (fun _ _ _ => true) [0] 0) = true
    ∧ ∀ s' rounds,
        shapeRefineFixpoint (fun _ (t : Nat) => .ok t)
          (fun _ _ _ => true) [0] 0 = .ok (s', rounds) →
        rounds ≤ kMaxIterationCount :=
  claim6_shape_refinement_capped_and_total
    (fun _ t => .ok t) (fun _ _ _ => true) [0] 0 (fun _ _ => rfl)

/-! ### Claim C7 -/

/-- Claim C7: a declared return produced by a `_Retval`/`_DeviceRetval`
pseudo-operation with exactly one real operand is unwrapped (its operand
is used directly and the wrapper island is erased), while such a return
wrapper with two or more operands is a hard "unimplemented" error. -/
theorem claim7_ret_wrapper_unwrapped (retNodeType : String) (retIndex : Nat)
    (inner : List (Nat × Nat)) (instId : Nat)
    (h : retNodeType = kRetOp ∨ retNodeType = kDeviceRetOp) :
    (∀ v, inner = [v] →
      convertRet retNodeType retIndex inner instId = .ok (v, true))
    ∧ (2 ≤ inner.length →
        convertRet retNodeType retIndex inner instId
          = .error (.unimplemented "Return node with multiple inputs.")) := by
  have hb : (retNodeType == kRetOp || retNodeType == kDeviceRetOp) = true := by
    rcases h with rfl | rfl <;> simp
  constructor
  · rintro v rfl
    simp [convertRet, hb]
  · intro h2
    have hne : inner.length ≠ 1 := by omega
    simp [convertRet, hb, hne]

/-- Concrete instantiation of claim C7. -/
theorem claim7_witness :
    convertRet "_Retval" 0 [(5, 0)] 3 = .ok ((5, 0), true)
    ∧ convertRet "_DeviceRetval" 0 [(5, 0), (6, 0)] 3
        = .error (.unimplemented "Return node with multiple inputs.") :=
  ⟨(claim7_ret_wrapper_unwrapped "_Retval" 0 [(5, 0)] 3 (Or.inl rfl)).1
      (5, 0) rfl,
   (claim7_ret_wrapper_unwrapped "_DeviceRetval" 0 [(5, 0), (6, 0)] 3
      (Or.inr rfl)).2 (by decide)⟩

/-! ### Claim C8 -/

/-- Claim C8: library-function conversion is idempotent and memoized per
source function name: the first call converts the function, records its
unique IR name in the name-translation table and appends exactly one IR
function to the module; a second call with the same name returns success
and leaves the state (in particular the module) unchanged. -/
theorem claim8_lib_function_memoized (uniq : String → LibState → String)
    (st : LibState) (fname : String)
    (h1 : mapFind st.tfNameToMlirName fname = none)
    (h2 : st.library.contains fname = true) :
    (convertLibFunction uniq st fname).1 = .ok ()
    ∧ mapFind (convertLibFunction uniq st fname).2.tfNameToMlirName fname
        = some (uniq fname st)
    ∧ (convertLibFunction uniq st fname).2.moduleFuncs
        = st.moduleFuncs ++ [uniq fname st]
    ∧ convertLibFunction uniq (convertLibFunction uniq st fname).2 fname
        = (.ok (), (convertLibFunction uniq st fname).2) := by
  have hm : fname ∈ st.library := by simpa using h2
  have hfst : convertLibFunction uniq st fname
      = (.ok (), { st with
          tfNameToMlirName := mapAssign st.tfNameToMlirName fname (uniq fname st),
          moduleFuncs := st.moduleFuncs ++ [uniq fname st] }) := by
    simp [convertLibFunction, h1, hm]
  refine ⟨by rw [hfst], ?_, by rw [hfst], ?_⟩
  · rw [hfst]
    exact mapFind_mapAssign_self _ _ _
  · rw [hfst]
    simp [convertLibFunction, mapFind_mapAssign_self]

/-- Concrete instantiation of claim C8. -/
theorem claim8_witness :
    (convertLibFunction (fun n _ => n) ⟨[], [], ["foo"]⟩ "foo").1 = .ok ()
    ∧ mapFind (convertLibFunction (fun n _ => n)
        ⟨[], [], ["foo"]⟩ "foo").2.tfNameToMlirName "foo" = some "foo"
    ∧ (convertLibFunction (fun n _ => n) ⟨[], [], ["foo"]⟩ "foo").2.moduleFuncs
        = [] ++ ["foo"]
    ∧ convertLibFunction (fun n _ => n)
        (convertLibFunction (fun n _ => n) ⟨[], [], ["foo"]⟩ "foo").2 "foo"
        = (.ok (), (convertLibFunction (fun n _ => n)
            ⟨[], [], ["foo"]⟩ "foo").2) :=
  claim8_lib_function_memoized (fun n _ => n) ⟨[], [], ["foo"]⟩ "foo"
    rfl (by decide)

/-! ### Claim C10 -/

/-- Claim C10: `ConvertLibFunction` is not atomic with respect to the
name-translation table: the fresh IR name is inserted into the table
before the library lookup, so a call that fails because the function name
is absent from the library still leaves the new table entry behind. -/
theorem claim10_failed_conversion_keeps_table_entry
    (uniq : String → LibState → String) (st : LibState) (fname : String)
    (h1 : mapFind st.tfNameToMlirName fname = none)
    (h2 : st.library.contains fname = false) :
    (convertLibFunction uniq st fname).1
      = .error (.failedPrecondition
          ("Failed to find function " ++ fname
            ++ ". The imported TensorFlow GraphDef is ill-formed."))
    ∧ mapFind (convertLibFunction uniq st fname).2.tfNameToMlirName fname
        = some (uniq fname st) := by
  have hm : fname ∉ st.library := by simpa using h2
  constructor
  · simp [convertLibFunction, h1, hm]
  · simp [convertLibFunction, h1, hm, mapFind_mapAssign_self]

/-- Concrete instantiation of claim C10. -/
theorem claim10_witness :
    (convertLibFunction (fun n _ => n ++ "_0") ⟨[], [], []⟩ "absent").1
      = .error (.failedPrecondition
          ("Failed to find function absent"
            ++ ". The imported TensorFlow GraphDef is ill-formed."))
    ∧ mapFind (convertLibFunction (fun n _ => n ++ "_0")
        ⟨[], [], []⟩ "absent").2.tfNameToMlirName "absent" = some "absent_0" :=
  claim10_failed_conversion_keeps_table_entry (fun n _ => n ++ "_0")
    ⟨[], [], []⟩ "absent" rfl rfl

/-! ### Claim C9 -/

/-- Claim C9: an attribute whose value field is unset converts to a unit
attribute rather than an error, while the genuinely unsupported
placeholder encoding produces an unimplemented error. -/
theorem claim9_unset_attribute_is_unit (uniq : String → LibState → String)
    (st : LibState) (p : String) :
    convertAttributeValue uniq st .valueNotSet = (.ok .unit, st)
    ∧ convertAttributeValue uniq st (.placeholder p)
        = (.error (.unimplemented "Attribute kPlaceholder"), st) :=
  ⟨rfl, rfl⟩

/-! ### Claim C3 -/

theorem recordBackedges_ok_aux :
    ∀ (l : List Edge) (srcMap : List (Nat × Int)) (dstMap : List (Nat × Edge)),
    (∀ e ∈ l, ∀ v, mapFind srcMap e.src = some v → v = e.srcOutput) →
    consistentBackedges l →
    ∃ res, recordBackedges l srcMap dstMap = .ok res
      ∧ (∀ e ∈ l, mapFind res.1 e.src = some e.srcOutput)
      ∧ (∀ s o, mapFind srcMap s = some o →
          (∀ e ∈ l, e.src = s → e.srcOutput = o) →
          mapFind res.1 s = some o) := by
  intro l
  induction l with
  | nil =>
    intro srcMap dstMap _ _
    exact ⟨(srcMap, dstMap), rfl, by simp, fun s o h _ => h⟩
  | cons e rest ih =>
    intro srcMap dstMap hcompat hcons
    have hconsrest : consistentBackedges rest := by
      intro e1 h1 e2 h2
      exact hcons e1 (List.mem_cons_of_mem e h1) e2 (List.mem_cons_of_mem e h2)
    have hcompat' :
        ∀ e2 ∈ rest, ∀ v,
          mapFind (mapAssign srcMap e.src e.srcOutput) e2.src = some v →
          v = e2.srcOutput := by
      intro e2 h2 v hv
      by_cases hs : e2.src = e.src
      · rw [hs, mapFind_mapAssign_self] at hv
        injection hv with hv
        rw [← hv]
        exact hcons e (List.mem_cons_self e rest) e2
          (List.mem_cons_of_mem e h2) hs.symm
      · rw [mapFind_mapAssign_ne _ _ hs] at hv
        exact hcompat e2 (List.mem_cons_of_mem e h2) v hv
    rcases ih (mapAssign srcMap e.src e.srcOutput) (mapAssign dstMap e.dst e)
      hcompat' hconsrest with ⟨res, hrec, hall, hpres⟩
    have hstep : recordBackedges (e :: rest) srcMap dstMap
        = recordBackedges rest (mapAssign srcMap e.src e.srcOutput)
            (mapAssign dstMap e.dst e) := by
      cases hfind : mapFind srcMap e.src with
      | none => simp [recordBackedges, hfind]
      | some v =>
        have hv : v = e.srcOutput :=
          hcompat e (List.mem_cons_self e rest) v hfind
        simp [recordBackedges, hfind, hv]
    refine ⟨res, hstep ▸ hrec, ?_, ?_⟩
    · intro e2 h2
      rcases List.mem_cons.mp h2 with rfl | h2r
      · exact hpres e2.src e2.srcOutput (mapFind_mapAssign_self _ _ _)
          (fun e3 h3 hs =>
            hcons e3 (List.mem_cons_of_mem e2 h3) e2
              (List.mem_cons_self e2 rest) hs)
      · exact hall e2 h2r
    · intro s o hfound hrule
      by_cases hs : e.src = s
      · have ho : e.srcOutput = o := hrule e (List.mem_cons_self e rest) hs
        refine hpres s o ?_ (fun e3 h3 hs3 => hrule e3 (List.mem_cons_of_mem e h3) hs3)
        rw [← hs, mapFind_mapAssign_self, ho]
      · refine hpres s o ?_ (fun e3 h3 hs3 => hrule e3 (List.mem_cons_of_mem e h3) hs3)
        rw [mapFind_mapAssign_ne _ _ (fun hh => hs hh.symm)]
        exact hfound

theorem backedgeBad_shift (e : Edge) (rest : List Edge)
    (srcMap : List (Nat × Int))
    (hgood : ∀ w, mapFind srcMap e.src = some w → w = e.srcOutput)
    (hbad : (∃ e2 ∈ e :: rest, ∃ w,
        mapFind srcMap e2.src = some w ∧ w ≠ e2.srcOutput)
      ∨ inconsistentPair (e :: rest)) :
    (∃ e2 ∈ rest, ∃ w,
        mapFind (mapAssign srcMap e.src e.srcOutput) e2.src = some w
          ∧ w ≠ e2.srcOutput)
      ∨ inconsistentPair rest := by
  rcases hbad with ⟨e2, he2, w, hw, hwne⟩ | ⟨e1, he1, e2, he2, hsrc, hout⟩
  · rcases List.mem_cons.mp he2 with rfl | he2r
    · exact absurd (hgood w hw) hwne
    · left
      by_cases hs : e2.src = e.src
      · refine ⟨e2, he2r, e.srcOutput, by rw [hs, mapFind_mapAssign_self], ?_⟩
        have hwe : w = e.srcOutput := hgood w (by rw [← hs]; exact hw)
        exact hwe ▸ hwne
      · exact ⟨e2, he2r, w, by rw [mapFind_mapAssign_ne _ _ hs]; exact hw, hwne⟩
  · rcases List.mem_cons.mp he1 with rfl | he1r
    · rcases List.mem_cons.mp he2 with rfl | he2r
      · exact absurd rfl hout
      · left
        exact ⟨e2, he2r, e1.srcOutput,
          by rw [← hsrc, mapFind_mapAssign_self], hout⟩
    · rcases List.mem_cons.mp he2 with rfl | he2r
      · left
        exact ⟨e1, he1r, e2.srcOutput,
          by rw [hsrc, mapFind_mapAssign_self], fun hh => hout hh.symm⟩
      · right
        exact ⟨e1, he1r, e2, he2r, hsrc, hout⟩

theorem recordBackedges_error_aux :
    ∀ (l : List Edge) (srcMap : List (Nat × Int)) (dstMap : List (Nat × Edge)),
    ((∃ e ∈ l, ∃ v, mapFind srcMap e.src = some v ∧ v ≠ e.srcOutput)
      ∨ inconsistentPair l) →
    recordBackedges l srcMap dstMap
      = .error (.failedPrecondition
          "More than one of the src node outputs are backedges!") := by
  intro l
  induction l with
  | nil =>
    intro srcMap dstMap hbad
    rcases hbad with ⟨e, he, _⟩ | ⟨e, he, _⟩ <;> simp at he
  | cons e rest ih =>
    intro srcMap dstMap hbad
    cases hfind : mapFind srcMap e.src with
    | some v =>
      by_cases hv : v = e.srcOutput
      · have hgood : ∀ w, mapFind srcMap e.src = some w → w = e.srcOutput := by
          intro w hw
          rw [hfind] at hw
          injection hw with hw
          rw [← hw]
          exact hv
        have hrec := ih (mapAssign srcMap e.src e.srcOutput)
          (mapAssign dstMap e.dst e) (backedgeBad_shift e rest srcMap hgood hbad)
        simpa [recordBackedges, hfind, hv] using hrec
      · simp [recordBackedges, hfind, hv]
    | none =>
      have hgood : ∀ w, mapFind srcMap e.src = some w → w = e.srcOutput := by
        intro w hw
        rw [hfind] at hw
        exact absurd hw (by simp)
      have hrec := ih (mapAssign srcMap e.src e.srcOutput)
        (mapAssign dstMap e.dst e) (backedgeBad_shift e rest srcMap hgood hbad)
      simpa [recordBackedges, hfind] using hrec

/-- Claim C3, as stated, is false on the code: two removed back-edges
sourced from the same (node, output) pair — here node 1, output 0 — do
NOT make the recording loop fail; it succeeds and records the pair
once. -/
theorem claim3_counterexample :
    (⟨1, 0, 2, 0⟩ : Edge).src = (⟨1, 0, 3, 0⟩ : Edge).src
    ∧ (⟨1, 0, 2, 0⟩ : Edge).srcOutput = (⟨1, 0, 3, 0⟩ : Edge).srcOutput
    ∧ (⟨1, 0, 2, 0⟩ : Edge) ≠ (⟨1, 0, 3, 0⟩ : Edge)
    ∧ recordBackedges [⟨1, 0, 2, 0⟩, ⟨1, 0, 3, 0⟩] [] []
        = .ok ([(1, 0)], [(2, ⟨1, 0, 2, 0⟩), (3, ⟨1, 0, 3, 0⟩)]) := by
  refine ⟨rfl, rfl, by decide, rfl⟩

/-- Claim C3 (amended): the recording loop over the removed back-edges
fails with the fatal precondition error exactly when two removed
back-edges share a source node but have different source output indices;
when every source node carries a single back-edge output index the loop
succeeds and records each removed edge's source node and output index
(several edges from the same node/output pair are collapsed into that one
record and do not fail). -/
theorem claim3_same_source_different_outputs_fatal (l : List Edge) :
    (exceptIsOk (recordBackedges l [] []) = true ↔ consistentBackedges l)
    ∧ (consistentBackedges l →
        ∀ e ∈ l,
          mapFind (recordedSrcMap (recordBackedges l [] [])) e.src
            = some e.srcOutput) := by
  constructor
  · constructor
    · intro hok
      by_contra hnc
      have hpair : inconsistentPair l := by
        unfold consistentBackedges at hnc
        push_neg at hnc
        rcases hnc with ⟨e1, he1, e2, he2, hsrc, hout⟩
        exact ⟨e1, he1, e2, he2, hsrc, hout⟩
      have := recordBackedges_error_aux l [] [] (Or.inr hpair)
      rw [this] at hok
      simp [exceptIsOk] at hok
    · intro hcons
      rcases recordBackedges_ok_aux l [] [] (by simp [mapFind]) hcons
        with ⟨res, hres, _, _⟩
      simp [hres, exceptIsOk]
  · intro hcons e he
    rcases recordBackedges_ok_aux l [] [] (by simp [mapFind]) hcons
      with ⟨res, hres, hall, _⟩
    rw [hres]
    exact hall e he

/-- Concrete instantiation of the amended claim C3, on a consistent
edge list and on an inconsistent one. -/
theorem claim3_witness :
    ((exceptIsOk (recordBackedges [⟨1, 0, 2, 0⟩, ⟨4, 1, 5, 0⟩] [] []) = true
        ↔ consistentBackedges [⟨1, 0, 2, 0⟩, ⟨4, 1, 5, 0⟩])
      ∧ (consistentBackedges [⟨1, 0, 2, 0⟩, ⟨4, 1, 5, 0⟩] →
          ∀ e ∈ ([⟨1, 0, 2, 0⟩, ⟨4, 1, 5, 0⟩] : List Edge),
            mapFind (recordedSrcMap
                (recordBackedges [⟨1, 0, 2, 0⟩, ⟨4, 1, 5, 0⟩] [] [])) e.src
              = some e.srcOutput))
    ∧ ((exceptIsOk (recordBackedges [⟨1, 0, 2, 0⟩, ⟨1, 1, 3, 0⟩] [] []) = true
        ↔ consistentBackedges [⟨1, 0, 2, 0⟩, ⟨1, 1, 3, 0⟩])) :=
  ⟨claim3_same_source_different_outputs_fatal [⟨1, 0, 2, 0⟩, ⟨4, 1, 5, 0⟩],
   (claim3_same_source_different_outputs_fatal [⟨1, 0, 2, 0⟩, ⟨1, 1, 3, 0⟩]).1⟩

/-! ### Claims C4 and C5: attribute conversion -/

theorem convertLibFunction_library (uniq : String → LibState → String)
    (st : LibState) (n : String) :
    ((convertLibFunction uniq st n).2).library = st.library := by
  unfold convertLibFunction
  cases mapFind st.tfNameToMlirName n with
  | some v => rfl
  | none =>
    simp only []
    split <;> rfl

theorem convertLibFunction_table_isSome (uniq : String → LibState → String)
    (st : LibState) (n m : String)
    (h : (mapFind st.tfNameToMlirName m).isSome = true) :
    (mapFind ((convertLibFunction uniq st n).2).tfNameToMlirName m).isSome
      = true := by
  unfold convertLibFunction
  cases hf : mapFind st.tfNameToMlirName n with
  | some v => exact h
  | none =>
    have hmn : m ≠ n := by
      intro hh
      rw [hh, hf] at h
      simp at h
    simp only []
    split
    · simpa [mapFind_mapAssign_ne _ _ hmn] using h
    · simpa [mapFind_mapAssign_ne _ _ hmn] using h

theorem convertLibFunction_ok_of_resolvable (uniq : String → LibState → String)
    (st : LibState) (n : String) (h : resolvable st n) :
    (convertLibFunction uniq st n).1 = .ok () := by
  unfold convertLibFunction
  cases hf : mapFind st.tfNameToMlirName n with
  | some v => rfl
  | none =>
    rcases h with hs | hc
    · rw [hf] at hs
      simp at hs
    · simp only []
      rw [if_pos hc]

theorem resolvable_preserved (uniq : String → LibState → String)
    (st : LibState) (n m : String) (h : resolvable st m) :
    resolvable ((convertLibFunction uniq st n).2) m := by
  rcases h with hs | hc
  · exact Or.inl (convertLibFunction_table_isSome uniq st n m hs)
  · right
    rw [convertLibFunction_library]
    exact hc

theorem convertFunctionCallName_of_ok (uniq : String → LibState → String)
    (st : LibState) (n : String)
    (h : (convertLibFunction uniq st n).1 = .ok ()) :
    convertFunctionCallName uniq st n
      = (.ok (.symbolRef
            ((mapFind ((convertLibFunction uniq st n).2).tfNameToMlirName n).getD "")),
          (convertLibFunction uniq st n).2) := by
  unfold convertFunctionCallName
  cases hc : convertLibFunction uniq st n with
  | mk fst snd =>
    rw [hc] at h
    cases fst with
    | error e => simp at h
    | ok u => rfl

theorem convertFunctionCallName_ok_shape (uniq : String → LibState → String)
    (st st' : LibState) (n : String) (a : MAttr)
    (h : convertFunctionCallName uniq st n = (.ok a, st')) :
    (∃ sym, a = .symbolRef sym) ∧ st' = (convertLibFunction uniq st n).2 := by
  unfold convertFunctionCallName at h
  cases hc : convertLibFunction uniq st n with
  | mk fst snd =>
    rw [hc] at h
    cases fst with
    | error e => simp at h
    | ok u =>
      simp only [Prod.mk.injEq] at h
      rcases h with ⟨h1, h2⟩
      injection h1 with h1
      exact ⟨⟨_, h1.symm⟩, h2.symm⟩

theorem convertListFuncs_unimpl (uniq : String → LibState → String) :
    ∀ (funcs : List NameAttrList) (st : LibState),
    (∀ fr ∈ funcs, resolvable st fr.name) →
    (∃ fr ∈ funcs, fr.attr ≠ []) →
    ∃ st', convertListFuncs uniq st funcs
      = (.error (.unimplemented "func attributes with non-zero attr.size()"),
          st') := by
  intro funcs
  induction funcs with
  | nil =>
    intro st _ hbad
    rcases hbad with ⟨fr, hfr, _⟩
    simp at hfr
  | cons item rest ih =>
    intro st hres hbad
    have hok := convertLibFunction_ok_of_resolvable uniq st item.name
      (hres item (List.mem_cons_self item rest))
    have hccn := convertFunctionCallName_of_ok uniq st item.name hok
    by_cases hattr : item.attr = []
    · rcases hbad with ⟨fr, hfr, hfrne⟩
      rcases List.mem_cons.mp hfr with rfl | hfrr
      · exact absurd hattr hfrne
      · have hres' : ∀ fr ∈ rest, resolvable ((convertLibFunction uniq st item.name).2) fr.name :=
          fun fr h => resolvable_preserved uniq st item.name fr.name
            (hres fr (List.mem_cons_of_mem item h))
        rcases ih ((convertLibFunction uniq st item.name).2) hres' ⟨fr, hfrr, hfrne⟩
          with ⟨st', hrec⟩
        refine ⟨st', ?_⟩
        simp only [convertListFuncs, hccn]
        rw [if_neg (by simp [hattr]), hrec]
    · refine ⟨(convertLibFunction uniq st item.name).2, ?_⟩
      simp only [convertListFuncs, hccn]
      rw [if_pos (by simpa using hattr)]

theorem convertListFuncs_ok_spec (uniq : String → LibState → String) :
    ∀ (funcs : List NameAttrList) (st : LibState) (out : List MAttr)
      (st' : LibState),
    convertListFuncs uniq st funcs = (.ok out, st') →
    out.length = funcs.length
    ∧ (∀ x ∈ out, ∃ sym, x = .symbolRef sym)
    ∧ (∀ fr ∈ funcs, fr.attr = []) := by
  intro funcs
  induction funcs with
  | nil =>
    intro st out st' h
    simp only [convertListFuncs, Prod.mk.injEq] at h
    rcases h with ⟨h1, _⟩
    injection h1 with h1
    subst h1
    exact ⟨rfl, by simp, by simp⟩
  | cons item rest ih =>
    intro st out st' h
    cases hccn : convertFunctionCallName uniq st item.name with
    | mk fst st₁ =>
      cases fst with
      | error e => simp [convertListFuncs, hccn] at h
      | ok a =>
        rcases convertFunctionCallName_ok_shape uniq st st₁ item.name a hccn
          with ⟨⟨sym, hsym⟩, _⟩
        by_cases hattr : item.attr.length = 0
        · simp only [convertListFuncs, hccn, hattr] at h
          rw [if_neg (by simp)] at h
          cases hrec : convertListFuncs uniq st₁ rest with
          | mk rfst st₂ =>
            rw [hrec] at h
            cases rfst with
            | error e => simp at h
            | ok xs =>
              simp only [Prod.mk.injEq] at h
              rcases h with ⟨h1, _⟩
              injection h1 with h1
              subst h1
              rcases ih st₁ xs st₂ hrec with ⟨hlen, hall, hempty⟩
              refine ⟨by simp [hlen], ?_, ?_⟩
              · intro x hx
                rcases List.mem_cons.mp hx with rfl | hxr
                · exact ⟨sym, hsym⟩
                · exact hall x hxr
              · intro fr hfr
                rcases List.mem_cons.mp hfr with rfl | hfrr
                · exact List.length_eq_zero.mp hattr
                · exact hempty fr hfrr
        · simp only [convertListFuncs, hccn] at h
          rw [if_pos (by simpa using hattr)] at h
          simp at h

/-- Claim C4: a list-valued attribute converts to a positional array
obtained by exhausting each homogeneous sub-list in the fixed order
ints, strings, floats, bools, types, shapes, tensors, function
references; and a listed function reference carrying any nested
attributes of its own makes the conversion fail with an unimplemented
error. -/
theorem claim4_list_attribute_order :
    (∀ (uniq : String → LibState → String) (st : LibState)
       (ints : List Int) (strs : List String) (floats : List Nat)
       (bools : List Bool) (types : List Nat) (shapes : List TensorShapeProto)
       (tensors : List TensorProto) (funcs : List NameAttrList)
       (a : MAttr) (st' : LibState),
      convertAttributeValue uniq st
          (.list ints strs floats bools types shapes tensors funcs)
        = (.ok a, st') →
      ∃ funcAttrs : List MAttr,
        a = .arr (ints.map MAttr.i64 ++ strs.map MAttr.str
          ++ floats.map MAttr.f32 ++ bools.map MAttr.b
          ++ types.map (fun t => MAttr.str (mangleDataType t))
          ++ shapes.map (fun sh => MAttr.str (mangleShape sh))
          ++ tensors.map MAttr.tensorElems ++ funcAttrs)
        ∧ funcAttrs.length = funcs.length
        ∧ (∀ x ∈ funcAttrs, ∃ sym, x = .symbolRef sym)
        ∧ (∀ fr ∈ funcs, fr.attr = []))
    ∧ (∀ (uniq : String → LibState → String) (st : LibState)
         (ints : List Int) (strs : List String) (floats : List Nat)
         (bools : List Bool) (types : List Nat) (shapes : List TensorShapeProto)
         (tensors : List TensorProto) (funcs : List NameAttrList),
        (∀ fr ∈ funcs, resolvable st fr.name) →
        (∃ fr ∈ funcs, fr.attr ≠ []) →
        ∃ st', convertAttributeValue uniq st
            (.list ints strs floats bools types shapes tensors funcs)
          = (.error (.unimplemented "func attributes with non-zero attr.size()"),
              st')) := by
  constructor
  · intro uniq st ints strs floats bools types shapes tensors funcs a st' h
    cases hclf : convertListFuncs uniq st funcs with
    | mk fst st₁ =>
      cases fst with
      | error e => simp [convertAttributeValue, hclf] at h
      | ok funcAttrs =>
        simp only [convertAttributeValue, hclf, Prod.mk.injEq] at h
        rcases h with ⟨h1, _⟩
        injection h1 with h1
        rcases convertListFuncs_ok_spec uniq funcs st funcAttrs st₁ hclf
          with ⟨hlen, hall, hempty⟩
        exact ⟨funcAttrs, h1.symm, hlen, hall, hempty⟩
  · intro uniq st ints strs floats bools types shapes tensors funcs hres hbad
    rcases convertListFuncs_unimpl uniq funcs st hres hbad with ⟨st', hclf⟩
    exact ⟨st', by simp [convertAttributeValue, hclf]⟩

theorem convertNestedFnAttrs_ok_spec (uniq : String → LibState → String)
    (baseName : String) :
    ∀ (l : List (String × AttrValue)) (st : LibState)
      (out : List (String × MAttr)) (st' : LibState),
    convertNestedFnAttrs uniq baseName st l = (.ok out, st') →
    out.length = l.length
    ∧ out.map Prod.fst = l.map (fun p => baseName ++ "." ++ p.1)
    ∧ ∀ i (hi : i < l.length), ∃ s₁ s₂ a,
        convertAttributeValue uniq s₁ (l.get ⟨i, hi⟩).2 = (.ok a, s₂)
        ∧ out.get? i = some (baseName ++ "." ++ (l.get ⟨i, hi⟩).1, a) := by
  intro l
  induction l with
  | nil =>
    intro st out st' h
    simp only [convertNestedFnAttrs, Prod.mk.injEq] at h
    rcases h with ⟨h1, _⟩
    injection h1 with h1
    subst h1
    exact ⟨rfl, by simp, fun i hi => absurd hi (by simp)⟩
  | cons kv rest ih =>
    rcases kv with ⟨k, v⟩
    intro st out st' h
    cases hca : convertAttributeValue uniq st v with
    | mk fst st₁ =>
      cases fst with
      | error e => simp [convertNestedFnAttrs, hca] at h
      | ok a =>
        simp only [convertNestedFnAttrs, hca] at h
        cases hrec : convertNestedFnAttrs uniq baseName st₁ rest with
        | mk rfst st₂ =>
          rw [hrec] at h
          cases rfst with
          | error e => simp at h
          | ok xs =>
            simp only [Prod.mk.injEq] at h
            rcases h with ⟨h1, _⟩
            injection h1 with h1
            subst h1
            rcases ih st₁ xs st₂ hrec with ⟨hlen, hnames, hvals⟩
            refine ⟨by simp [hlen], by simp [hnames], ?_⟩
            intro i hi
            cases i with
            | zero => exact ⟨st, st₁, a, hca, rfl⟩
            | succ i' =>
              have hi' : i' < rest.length := by
                simp only [List.length_cons] at hi
                omega
              rcases hvals i' hi' with ⟨s₁, s₂, a', h1, h2⟩
              exact ⟨s₁, s₂, a', h1, h2⟩

/-- Claim C5: converting a function-valued attribute with base name `B`
and nested attributes emits exactly one reference attribute named `B`
(a symbol reference to the target function) plus, for each nested key
`k`, one attribute named `B.k` holding the converted nested value — one
plus the number of nested attributes in total. -/
theorem claim5_function_attribute_expansion
    (uniq : String → LibState → String) (st : LibState) (baseName : String)
    (fref : NameAttrList) (r : List (String × MAttr)) (st' : LibState)
    (h : convertFunctionCallAttribute uniq st baseName fref = (.ok r, st')) :
    r.length = 1 + fref.attr.length
    ∧ r.map Prod.fst
        = baseName :: fref.attr.map (fun p => baseName ++ "." ++ p.1)
    ∧ (∃ sym, r.head? = some (baseName, .symbolRef sym))
    ∧ ∀ i (hi : i < fref.attr.length), ∃ s₁ s₂ a,
        convertAttributeValue uniq s₁ (fref.attr.get ⟨i, hi⟩).2 = (.ok a, s₂)
        ∧ r.get? (i + 1)
            = some (baseName ++ "." ++ (fref.attr.get ⟨i, hi⟩).1, a) := by
  cases hccn : convertFunctionCallName uniq st fref.name with
  | mk fst st₁ =>
    cases fst with
    | error e => simp [convertFunctionCallAttribute, hccn] at h
    | ok fa =>
      rcases convertFunctionCallName_ok_shape uniq st st₁ fref.name fa hccn
        with ⟨⟨sym, hsym⟩, _⟩
      simp only [convertFunctionCallAttribute, hccn] at h
      cases hnest : convertNestedFnAttrs uniq baseName st₁ fref.attr with
      | mk rfst st₂ =>
        rw [hnest] at h
        cases rfst with
        | error e => simp at h
        | ok nested =>
          simp only [Prod.mk.injEq] at h
          rcases h with ⟨h1, _⟩
          injection h1 with h1
          subst h1
          rcases convertNestedFnAttrs_ok_spec uniq baseName fref.attr st₁
            nested st₂ hnest with ⟨hlen, hnames, hvals⟩
          refine ⟨by simp [hlen, Nat.add_comm], by simp [hnames], ⟨sym, by simp [hsym]⟩, ?_⟩
          intro i hi
          rcases hvals i hi with ⟨s₁, s₂, a', h1, h2⟩
          exact ⟨s₁, s₂, a', h1, h2⟩

/-- Concrete instantiation of claim C4: a list with one integer and one
attribute-free function reference flattens in the fixed order, and a list
whose function reference carries a nested attribute fails as
unimplemented. -/
theorem claim4_witness :
    (∃ funcAttrs : List MAttr,
      MAttr.arr [.i64 1, .symbolRef "g"]
        = .arr ([(1 : Int)].map MAttr.i64 ++ ([] : List String).map MAttr.str
          ++ ([] : List Nat).map MAttr.f32 ++ ([] : List Bool).map MAttr.b
          ++ ([] : List Nat).map (fun t => MAttr.str (mangleDataType t))
          ++ ([] : List TensorShapeProto).map (fun sh => MAttr.str (mangleShape sh))
          ++ ([] : List TensorProto).map MAttr.tensorElems ++ funcAttrs)
      ∧ funcAttrs.length = ([⟨"g", []⟩] : List NameAttrList).length
      ∧ (∀ x ∈ funcAttrs, ∃ sym, x = MAttr.symbolRef sym)
      ∧ (∀ fr ∈ ([⟨"g", []⟩] : List NameAttrList), fr.attr = []))
    ∧ (∃ st', convertAttributeValue (fun n _ => n) ⟨[], [], ["g"]⟩
        (.list [] [] [] [] [] [] [] [⟨"g", [("k", .i 1)]⟩])
      = (.error (.unimplemented "func attributes with non-zero attr.size()"),
          st')) :=
  ⟨claim4_list_attribute_order.1 (fun n _ => n) ⟨[], [], ["g"]⟩
      [1] [] [] [] [] [] [] [⟨"g", []⟩]
      (.arr [.i64 1, .symbolRef "g"]) ⟨[("g", "g")], ["g"], ["g"]⟩ rfl,
   claim4_list_attribute_order.2 (fun n _ => n) ⟨[], [], ["g"]⟩
      [] [] [] [] [] [] [] [⟨"g", [("k", .i 1)]⟩]
      (by
        intro fr hfr
        rcases List.mem_singleton.mp hfr with rfl
        exact Or.inr rfl)
      ⟨⟨"g", [("k", .i 1)]⟩, List.mem_singleton.mpr rfl,
        List.cons_ne_nil _ _⟩⟩

/-- Concrete instantiation of claim C5 (end-to-end scenario 5): the
function-valued attribute `\x7bname: "foo", attrs: \x7bk: 1\x7d\x7d`
under base name "f" yields exactly two IR attributes, the reference
attribute "f" and the integer attribute "f.k". -/
theorem claim5_witness :
    ([("f", MAttr.symbolRef "foo"), ("f.k", MAttr.i64 1)]
        : List (String × MAttr)).length
      = 1 + ([("k", AttrValue.i 1)] : List (String × AttrValue)).length
    ∧ ([("f", MAttr.symbolRef "foo"), ("f.k", MAttr.i64 1)]
        : List (String × MAttr)).map Prod.fst
      = "f" :: ([("k", AttrValue.i 1)] : List (String × AttrValue)).map
          (fun p => "f" ++ "." ++ p.1)
    ∧ (∃ sym,
        ([("f", MAttr.symbolRef "foo"), ("f.k", MAttr.i64 1)]
            : List (String × MAttr)).head?
          = some ("f", .symbolRef sym))
    ∧ ∀ i (hi : i < ([("k", AttrValue.i 1)]
          : List (String × AttrValue)).length),
        ∃ s₁ s₂ a,
          convertAttributeValue (fun n _ => n) s₁
              (([("k", AttrValue.i 1)]
                : List (String × AttrValue)).get ⟨i, hi⟩).2 = (.ok a, s₂)
          ∧ ([("f", MAttr.symbolRef "foo"), ("f.k", MAttr.i64 1)]
              : List (String × MAttr)).get? (i + 1)
            = some ("f" ++ "." ++ (([("k", AttrValue.i 1)]
                : List (String × AttrValue)).get ⟨i, hi⟩).1, a) :=
  claim5_function_attribute_expansion (fun n _ => n) ⟨[], [], ["foo"]⟩ "f"
    ⟨"foo", [("k", .i 1)]⟩
    [("f", MAttr.symbolRef "foo"), ("f.k", MAttr.i64 1)]
    ⟨[("foo", "foo")], ["foo"], ["foo"]⟩ rfl

end TFImporter
